import Mathlib

/-!
Verification of the pipeline evaluation engine specified for the
Quantopian-style Pipeline API demonstrated in
`10-Quantopian-Platform/06-Pipelines.ipynb`.

The notebook only *uses* the hosted engine (`quantopian.pipeline`,
`run_pipeline`); the engine's own code is not part of the repository.
All definitions below are therefore modelled from the design
specification of that engine (term graph of Factors and Filters,
windowed evaluation with a first-class "missing" sentinel, masks,
screens, and tabular assembly sorted by date then asset).
-/

namespace QP

/- Assets are identified by natural numbers (equity sids), trading dates by
indices into the trading calendar, and raw data columns (such as
`USEquityPricing.close`) by column identifiers; all three are `Nat`. -/

/-- Modelled from the spec: the Data Loader contract.  A data source maps a
column, date and asset to the raw observation for that day, or `none` when
the observation is missing (asset not yet listed, delisted, no data). -/
abbrev DataSource := Nat → Nat → Nat → Option ℚ

mutual

/-- Modelled from the spec: numeric computation nodes (Factors) of the term
graph.  `latest c` is `c.latest`; `sma c w m` is
`SimpleMovingAverage(inputs=[c], window_length=w, mask=m)`; `sub` and `div`
are the arithmetic combinations used by `percent_difference`. -/
inductive Factor : Type where
  | latest : Nat → Factor
  | sma : Nat → Nat → Option Filter → Factor
  | sub : Factor → Factor → Factor
  | div : Factor → Factor → Factor

/-- Modelled from the spec: three-valued boolean computation nodes (Filters):
comparisons of a Factor against a constant (`>`, `<`), conjunction (`&`)
and inversion (`~`). -/
inductive Filter : Type where
  | gt : Factor → ℚ → Filter
  | lt : Factor → ℚ → Filter
  | and : Filter → Filter → Filter
  | not : Filter → Filter

end

/-- Collect a list of optional observations into an optional list: the
result is `none` as soon as any single observation is missing. -/
def collectSome : List (Option ℚ) → Option (List ℚ)
  | [] => some []
  | none :: _ => none
  | some x :: rest => (collectSome rest).map (x :: ·)

/-- Modelled from the spec: the trailing buffer of length `w` ending at date
`d` for column `c` and asset `a`: the observations at dates
`d, d-1, …, d-w+1`.  It is `none` when the calendar does not reach back `w`
days or when any single observation in the window is missing. -/
def windowVals (D : DataSource) (c : Nat) (w : Nat) (d : Nat) (a : Nat) :
    Option (List ℚ) :=
  if d + 1 < w then none
  else collectSome ((List.range w).map (fun i => D c (d - i) a))

mutual

/-- Modelled from the spec: the Window Evaluator on Factors.  Produces the
per-asset numeric value of a Factor at a date, or `none` (the missing
sentinel).  Missing inputs propagate; division by a zero or missing
denominator is missing, never an error.  A mask that does not retain the
asset makes the node missing for it. -/
def evalFactor (D : DataSource) (d : Nat) (a : Nat) : Factor → Option ℚ
  | .latest c => D c d a
  | .sma c w m =>
      match m with
      | none => (windowVals D c w d a).map (fun xs => xs.sum / (w : ℚ))
      | some M =>
          if evalFilter D d a M = some true then
            (windowVals D c w d a).map (fun xs => xs.sum / (w : ℚ))
          else none
  | .sub f g =>
      match evalFactor D d a f, evalFactor D d a g with
      | some x, some y => some (x - y)
      | _, _ => none
  | .div f g =>
      match evalFactor D d a f, evalFactor D d a g with
      | some x, some y => if y = 0 then none else some (x / y)
      | _, _ => none

/-- Modelled from the spec: the Window Evaluator on Filters, in three-valued
logic (`some true` / `some false` / `none` = missing).  A comparison with a
missing operand is missing; `and` is missing when either operand is
missing; `not` is missing exactly where its operand is missing. -/
def evalFilter (D : DataSource) (d : Nat) (a : Nat) : Filter → Option Bool
  | .gt f q => (evalFactor D d a f).map (fun x => decide (q < x))
  | .lt f q => (evalFactor D d a f).map (fun x => decide (x < q))
  | .and F G =>
      match evalFilter D d a F, evalFilter D d a G with
      | some b, some c => some (b && c)
      | _, _ => none
  | .not F => (evalFilter D d a F).map (fun b => !b)

end

/-- A requested output term: either a Factor column or a Filter column. -/
inductive Term : Type where
  | factor : Factor → Term
  | filt : Filter → Term

/-- A value stored in one cell of the result table. -/
inductive CellVal : Type where
  | num : ℚ → CellVal
  | bool : Bool → CellVal
deriving DecidableEq

/-- Evaluate an output term to an optional cell value. -/
def evalTerm (D : DataSource) (d : Nat) (a : Nat) : Term → Option CellVal
  | .factor f => (evalFactor D d a f).map CellVal.num
  | .filt F => (evalFilter D d a F).map CellVal.bool

/-- Modelled from the spec: a Pipeline is a mapping from output column names
to Terms, plus an optional screen Filter. -/
structure Pipeline : Type where
  columns : List (String × Term)
  screen : Option Filter

/-- Modelled from the spec: the universe history — the list of assets listed
on each date. -/
abbrev Universe := Nat → List Nat

/-- Modelled from the spec: which assets survive into the result rows for a
date.  With a screen, an asset survives exactly when the screen evaluates
to `some true` (False and missing rows are removed).  With no screen, an
asset survives unless there are declared output columns and its value is
missing in every one of them. -/
def keepAsset (D : DataSource) (p : Pipeline) (d : Nat) (a : Nat) : Bool :=
  match p.screen with
  | some F => evalFilter D d a F = some true
  | none =>
      p.columns.isEmpty ||
        p.columns.any (fun nc => (evalTerm D d a nc.2).isSome)

/-- One row of the result table: the date, the asset, and one named cell
per declared output column. -/
structure Row : Type where
  date : Nat
  asset : Nat
  cells : List (String × Option CellVal)
deriving DecidableEq

/-- Build the row for a surviving (date, asset) pair. -/
def mkRow (D : DataSource) (p : Pipeline) (d : Nat) (a : Nat) : Row :=
  ⟨d, a, p.columns.map (fun nc => (nc.1, evalTerm D d a nc.2))⟩

/-- Modelled from the spec: the rows of the result table for one date, one
row per surviving asset, sorted by ascending asset identifier. -/
def rowsForDate (D : DataSource) (u : Universe) (p : Pipeline) (d : Nat) :
    List Row :=
  (List.insertionSort (· ≤ ·) ((u d).filter (keepAsset D p d))).map
    (mkRow D p d)

/-- Evaluate `n` consecutive dates starting at `s`, concatenating the
per-date row blocks in ascending date order. -/
def runAux (D : DataSource) (u : Universe) (p : Pipeline) :
    Nat → Nat → List Row
  | _, 0 => []
  | s, n + 1 => rowsForDate D u p s ++ runAux D u p (s + 1) n

/-- Modelled from the spec: `run_pipeline(pipeline, start_date, end_date)` —
evaluate the pipeline over the inclusive date range and assemble the
result table, rows sorted by date ascending then asset ascending. -/
def runPipeline (D : DataSource) (u : Universe) (p : Pipeline)
    (startD endD : Nat) : List Row :=
  runAux D u p startD (endD + 1 - startD)

/-- The asset column of a list of result rows. -/
def rowAssets (l : List Row) : List Nat :=
  l.map Row.asset

/-- The (date ascending, then asset ascending) ordering on result rows. -/
def rowLE (r s : Row) : Prop :=
  r.date < s.date ∨ (r.date = s.date ∧ r.asset ≤ s.asset)

/-- Demo data for the 30-day SMA scenario of the spec: asset 0 (A) has close
prices only on the last 5 of 30 trading days, while assets 1 (B) and
2 (C) have close prices on all 30 days. -/
def demoData : DataSource := fun _ d a =>
  if d < 30 then
    if a = 0 then (if 25 ≤ d then some 1 else none)
    else if a = 1 then some 2
    else if a = 2 then some 4
    else none
  else none

/-- The 30-day simple moving average of the close column, unmasked. -/
def sma30 : Factor := .sma 0 30 none

/-- Demo data where asset 0 has close 3 and every other asset close 0. -/
def zData : DataSource := fun _ _ a => if a = 0 then some 3 else some 0

/-- Demo data: asset 0 closes at 10, asset 1 at 1, other assets missing. -/
def filterData : DataSource := fun _ _ a =>
  if a = 0 then some 10 else if a = 1 then some 1 else none

/-- Demo data where every close is 2. -/
def constData : DataSource := fun _ _ _ => some 2

/-- A constant three-asset universe. -/
def univ3 : Universe := fun _ => [0, 1, 2]

/-- A demo screen: latest close greater than 5. -/
def gtFive : Filter := .gt (.latest 0) 5

/-- A demo screen: latest close below 20. -/
def ltTwenty : Filter := .lt (.latest 0) 20

/-- A demo mask: latest close below 5. -/
def ltFive : Filter := .lt (.latest 0) 5

/-- A one-column pipeline with no screen. -/
def latestPipe : Pipeline := ⟨[("Latest Close", .factor (.latest 0))], none⟩

/-- A pipeline that declares its own screen as an output column. -/
def screenPipe : Pipeline := ⟨[("pos", .filt gtFive)], some gtFive⟩

/-! ### Basic lemmas about the evaluator -/

theorem collectSome_eq_none_iff (l : List (Option ℚ)) :
    collectSome l = none ↔ none ∈ l := by
  induction l with
  | nil => simp [collectSome]
  | cons x rest ih =>
    cases x with
    | none => simp [collectSome]
    | some v => simp [collectSome, Option.map_eq_none', ih]

/-- The trailing window is unavailable exactly when the calendar does not
reach back `w` days or some single day's observation is missing. -/
theorem windowVals_eq_none_iff (D : DataSource) (c : Nat) (w : Nat)
    (d : Nat) (a : Nat) :
    windowVals D c w d a = none ↔
      (d + 1 < w ∨ ∃ i < w, D c (d - i) a = none) := by
  unfold windowVals
  split
  · simp only [true_iff]
    left; assumption
  · rename_i h
    rw [collectSome_eq_none_iff]
    simp only [List.mem_map, List.mem_range, eq_comm (b := (none : Option ℚ))]
    constructor
    · rintro ⟨i, hi, hnone⟩
      exact Or.inr ⟨i, hi, hnone⟩
    · rintro (hlt | ⟨i, hi, hnone⟩)
      · exact absurd hlt h
      · exact ⟨i, hi, hnone⟩

theorem evalFilter_not_eq_none_iff (D : DataSource) (d : Nat) (a : Nat)
    (F : Filter) :
    evalFilter D d a (.not F) = none ↔ evalFilter D d a F = none := by
  simp [evalFilter, Option.map_eq_none']

theorem evalFilter_not_eq_true_iff (D : DataSource) (d : Nat) (a : Nat)
    (F : Filter) :
    evalFilter D d a (.not F) = some true ↔
      evalFilter D d a F = some false := by
  cases h : evalFilter D d a F with
  | none => simp [evalFilter, h]
  | some b => cases b <;> simp [evalFilter, h]

theorem evalFilter_and_eq_true_iff (D : DataSource) (d : Nat) (a : Nat)
    (F G : Filter) :
    evalFilter D d a (.and F G) = some true ↔
      (evalFilter D d a F = some true ∧ evalFilter D d a G = some true) := by
  cases hF : evalFilter D d a F with
  | none => simp [evalFilter, hF]
  | some b =>
    cases hG : evalFilter D d a G with
    | none => simp [evalFilter, hF, hG]
    | some c => cases b <;> cases c <;> simp [evalFilter, hF, hG]

theorem keepAsset_screen (D : DataSource) (cols : List (String × Term))
    (F : Filter) (d : Nat) (a : Nat) :
    keepAsset D ⟨cols, some F⟩ d a = true ↔
      evalFilter D d a F = some true := by
  simp [keepAsset]

/-! ### Basic lemmas about row assembly -/

theorem mem_rowsForDate {D : DataSource} {u : Universe} {p : Pipeline}
    {d : Nat} {r : Row} :
    r ∈ rowsForDate D u p d ↔
      ∃ a, a ∈ u d ∧ keepAsset D p d a = true ∧ r = mkRow D p d a := by
  unfold rowsForDate
  rw [List.mem_map]
  constructor
  · rintro ⟨a, ha, rfl⟩
    have hmem := (List.perm_insertionSort (· ≤ ·)
      ((u d).filter (keepAsset D p d))).mem_iff.mp ha
    rw [List.mem_filter] at hmem
    exact ⟨a, hmem.1, hmem.2, rfl⟩
  · rintro ⟨a, hu, hk, rfl⟩
    exact ⟨a, (List.perm_insertionSort _ _).mem_iff.mpr
      (List.mem_filter.mpr ⟨hu, hk⟩), rfl⟩

theorem mem_rowAssets {D : DataSource} {u : Universe} {p : Pipeline}
    {d : Nat} {a : Nat} :
    a ∈ rowAssets (rowsForDate D u p d) ↔
      a ∈ u d ∧ keepAsset D p d a = true := by
  unfold rowAssets
  rw [List.mem_map]
  constructor
  · rintro ⟨r, hr, rfl⟩
    rcases mem_rowsForDate.mp hr with ⟨b, hb, hk, rfl⟩
    exact ⟨hb, hk⟩
  · rintro ⟨hu, hk⟩
    exact ⟨mkRow D p d a, mem_rowsForDate.mpr ⟨a, hu, hk, rfl⟩, rfl⟩

theorem date_of_mem_rowsForDate {D : DataSource} {u : Universe} {p : Pipeline}
    {d : Nat} {r : Row} (h : r ∈ rowsForDate D u p d) : r.date = d := by
  rcases mem_rowsForDate.mp h with ⟨a, _, _, rfl⟩
  rfl

theorem mem_runAux {D : DataSource} {u : Universe} {p : Pipeline} {r : Row} :
    ∀ {n : Nat} {s : Nat}, r ∈ runAux D u p s n ↔
      ∃ d, s ≤ d ∧ d < s + n ∧ r ∈ rowsForDate D u p d := by
  intro n
  induction n with
  | zero =>
    intro s
    constructor
    · intro h
      simp [runAux] at h
    · rintro ⟨d, h1, h2, _⟩
      omega
  | succ m ih =>
    intro s
    rw [runAux, List.mem_append, ih]
    constructor
    · rintro (h | ⟨d, hd1, hd2, hd3⟩)
      · refine ⟨s, Nat.le_refl s, ?_, h⟩
        omega
      · refine ⟨d, ?_, ?_, hd3⟩ <;> omega
    · rintro ⟨d, hd1, hd2, hd3⟩
      rcases Nat.eq_or_lt_of_le hd1 with rfl | hlt
      · exact Or.inl hd3
      · refine Or.inr ⟨d, hlt, ?_, hd3⟩
        omega

/-! ### Sortedness of the assembled table -/

theorem pairwise_rowsForDate (D : DataSource) (u : Universe) (p : Pipeline)
    (d : Nat) : (rowsForDate D u p d).Pairwise rowLE := by
  unfold rowsForDate
  rw [List.pairwise_map]
  have hs := List.sorted_insertionSort (· ≤ ·)
    ((u d).filter (keepAsset D p d))
  exact hs.imp (fun h => Or.inr ⟨rfl, h⟩)

theorem pairwise_runAux (D : DataSource) (u : Universe) (p : Pipeline) :
    ∀ (n s : Nat), (runAux D u p s n).Pairwise rowLE := by
  intro n
  induction n with
  | zero => intro s; exact List.Pairwise.nil
  | succ m ih =>
    intro s
    rw [runAux, List.pairwise_append]
    refine ⟨pairwise_rowsForDate D u p s, ih (s + 1), ?_⟩
    intro r hr r' hr'
    have h1 : r.date = s := date_of_mem_rowsForDate hr
    rcases mem_runAux.mp hr' with ⟨d, hd1, _, hmem⟩
    have h2 : r'.date = d := date_of_mem_rowsForDate hmem
    exact Or.inl (by omega)

/-! ### Counting rows -/

theorem countP_rowsForDate_eq_one {D : DataSource} {u : Universe}
    {p : Pipeline} {d a : Nat} (hnd : (u d).Nodup) (hmem : a ∈ u d)
    (hk : keepAsset D p d a = true) :
    (rowsForDate D u p d).countP
      (fun r => r.date == d && r.asset == a) = 1 := by
  unfold rowsForDate
  rw [List.countP_map]
  have hcomp : ((fun r : Row => r.date == d && r.asset == a) ∘ (mkRow D p d))
      = fun b => b == a := by
    funext b
    simp [mkRow]
  rw [hcomp]
  rw [(List.perm_insertionSort (· ≤ ·)
    ((u d).filter (keepAsset D p d))).countP_eq]
  have : List.countP (fun b => b == a) ((u d).filter (keepAsset D p d))
      = List.count a ((u d).filter (keepAsset D p d)) := rfl
  rw [this]
  exact List.count_eq_one_of_mem (hnd.filter _)
    (List.mem_filter.mpr ⟨hmem, hk⟩)

theorem countP_rowsForDate_eq_zero {D : DataSource} {u : Universe}
    {p : Pipeline} {d d' a : Nat} (hne : d' ≠ d) :
    (rowsForDate D u p d').countP
      (fun r => r.date == d && r.asset == a) = 0 := by
  rw [List.countP_eq_zero]
  intro r hr
  have : r.date = d' := date_of_mem_rowsForDate hr
  simp [this, hne]

theorem countP_runAux_eq_one {D : DataSource} {u : Universe} {p : Pipeline}
    {d a : Nat} (hnd : (u d).Nodup) (hmem : a ∈ u d)
    (hk : keepAsset D p d a = true) :
    ∀ {n s : Nat}, s ≤ d → d < s + n →
      (runAux D u p s n).countP
        (fun r => r.date == d && r.asset == a) = 1 := by
  intro n
  induction n with
  | zero => intro s h1 h2; omega
  | succ m ih =>
    intro s h1 h2
    rw [runAux, List.countP_append]
    rcases Nat.eq_or_lt_of_le h1 with rfl | hlt
    · rw [countP_rowsForDate_eq_one hnd hmem hk]
      have hzero : (runAux D u p (s + 1) m).countP
          (fun r => r.date == s && r.asset == a) = 0 := by
        rw [List.countP_eq_zero]
        intro r hr
        rcases mem_runAux.mp hr with ⟨e, he1, _, hmem'⟩
        have : r.date = e := date_of_mem_rowsForDate hmem'
        simp only [Bool.and_eq_true, beq_iff_eq, not_and]
        intro hdate
        omega
      rw [hzero]
    · rw [countP_rowsForDate_eq_zero (by omega)]
      rw [ih (by omega) (by omega)]

/-! ### Length lemmas -/

theorem length_rowsForDate (D : DataSource) (u : Universe) (p : Pipeline)
    (d : Nat) :
    (rowsForDate D u p d).length =
      ((u d).filter (keepAsset D p d)).length := by
  unfold rowsForDate
  rw [List.length_map]
  exact (List.perm_insertionSort _ _).length_eq

theorem all_isNone_eq_not_any_isSome (l : List (String × Term))
    (f : String × Term → Option CellVal) :
    l.all (fun nc => (f nc).isNone) = !(l.any (fun nc => (f nc).isSome)) := by
  induction l with
  | nil => rfl
  | cons c cs ih => cases h : f c <;> simp [h, ih]

theorem cells_map_fst (D : DataSource) (p : Pipeline) (d a : Nat) :
    (mkRow D p d a).cells.map Prod.fst = p.columns.map Prod.fst := by
  simp only [mkRow, List.map_map]
  rfl

/-! ### Claim theorems -/

/-- C1: for every pair of Factors `f` and `g`, the Factor `f / g` evaluates
to the missing sentinel at every (date, asset) where `g` is zero or
missing.  (`evalFactor` is a total Lean function, so the division can
never raise.) -/
theorem div_eval_missing_of_denominator_zero_or_missing
    (D : DataSource) (d a : Nat) (f g : Factor)
    (h : evalFactor D d a g = none ∨ evalFactor D d a g = some 0) :
    evalFactor D d a (.div f g) = none := by
  rcases h with h | h <;>
    cases hf : evalFactor D d a f <;> simp [evalFactor, hf, h]

/-- Witness for C1: with asset 1's close equal to 0, dividing the latest
close by itself yields the missing sentinel. -/
theorem div_eval_missing_of_denominator_zero_or_missing_witness :
    (evalFactor zData 0 1 (.latest 0) = some 0) ∧
      evalFactor zData 0 1 (.div (.latest 0) (.latest 0)) = none :=
  ⟨by decide, div_eval_missing_of_denominator_zero_or_missing zData 0 1
    (.latest 0) (.latest 0) (Or.inr (by decide))⟩

/-- C2: pipeline evaluation is deterministic — two runs of `runPipeline` on
identical data, universe history, pipeline and date range produce identical
result tables.  (`runPipeline` is a pure function of its inputs.) -/
theorem runPipeline_deterministic (D₁ D₂ : DataSource) (u₁ u₂ : Universe)
    (p : Pipeline) (s e : Nat) (hD : D₁ = D₂) (hu : u₁ = u₂) :
    runPipeline D₁ u₁ p s e = runPipeline D₂ u₂ p s e := by
  subst hD
  subst hu
  rfl

/-- Witness for C2: two runs of the demo pipeline on the demo data coincide. -/
theorem runPipeline_deterministic_witness :
    zData = zData ∧ univ3 = univ3 ∧
      runPipeline zData univ3 latestPipe 0 0 =
        runPipeline zData univ3 latestPipe 0 0 :=
  ⟨rfl, rfl,
    runPipeline_deterministic zData zData univ3 univ3 latestPipe 0 0 rfl rfl⟩

/-- C3: a Term with window length `w` is missing at every (date, asset)
lacking `w` full days of input history (first conjunct); a missing value
propagates through downstream arithmetic, comparisons and boolean
composition (second and third conjuncts); and in the spec's scenario —
universe {A, B, C} with 30 days of close prices of which asset A has only
the last 5 — the 30-day SimpleMovingAverage is missing for A on every date
and numeric for B and C (last conjunct).  All evaluators are total Lean
functions, so no input can make them raise. -/
theorem sma_missing_without_full_history :
    (∀ (D : DataSource) (c w d a : Nat),
        (d + 1 < w ∨ ∃ i < w, D c (d - i) a = none) →
        evalFactor D d a (.sma c w none) = none) ∧
    (∀ (D : DataSource) (d a : Nat) (f g : Factor) (q : ℚ),
        evalFactor D d a f = none →
          evalFactor D d a (.sub f g) = none ∧
          evalFactor D d a (.sub g f) = none ∧
          evalFactor D d a (.div f g) = none ∧
          evalFactor D d a (.div g f) = none ∧
          evalFilter D d a (.gt f q) = none ∧
          evalFilter D d a (.lt f q) = none) ∧
    (∀ (D : DataSource) (d a : Nat) (F G : Filter),
        evalFilter D d a F = none →
          evalFilter D d a (.and F G) = none ∧
          evalFilter D d a (.and G F) = none ∧
          evalFilter D d a (.not F) = none) ∧
    ((∀ d, evalFactor demoData d 0 sma30 = none) ∧
      (evalFactor demoData 29 1 sma30).isSome = true ∧
      (evalFactor demoData 29 2 sma30).isSome = true) := by
  have hwin : ∀ (D : DataSource) (c w d a : Nat),
      (d + 1 < w ∨ ∃ i < w, D c (d - i) a = none) →
      evalFactor D d a (.sma c w none) = none := by
    intro D c w d a h
    have hnone := (windowVals_eq_none_iff D c w d a).mpr h
    simp [evalFactor, hnone]
  refine ⟨hwin, ?_, ?_, ?_⟩
  · intro D d a f g q h
    refine ⟨?_, ?_, ?_, ?_, ?_, ?_⟩ <;> simp [evalFactor, evalFilter, h]
  · intro D d a F G h
    refine ⟨?_, ?_, ?_⟩ <;> simp [evalFilter, h]
  · have hb : ∀ d < 30, evalFactor demoData d 0 sma30 = none := by decide
    refine ⟨?_, by decide, by decide⟩
    intro d
    by_cases hd : d < 30
    · exact hb d hd
    · refine hwin demoData 0 30 d 0 (Or.inr ⟨0, by omega, ?_⟩)
      rw [Nat.sub_zero]
      simp [demoData, hd]

/-- Witness for C3: asset A on day 5 lacks 30 days of history and its
30-day moving average is missing there. -/
theorem sma_missing_without_full_history_witness :
    (5 + 1 < 30 ∨ ∃ i < 30, demoData 0 (5 - i) 0 = none) ∧
      evalFactor demoData 5 0 (.sma 0 30 none) = none :=
  ⟨by decide, sma_missing_without_full_history.1 demoData 0 30 5 0 (by decide)⟩

/-- C4: `NOT F` is missing exactly where `F` is missing (first conjunct);
screening the same columns once with `F` and once with `NOT F` on a date
yields disjoint row sets (second conjunct) whose union is the universe for
that date minus the assets on which `F` is missing (third conjunct). -/
theorem not_screen_partitions (D : DataSource) (u : Universe)
    (cols : List (String × Term)) (F : Filter) (d : Nat) :
    (∀ a, evalFilter D d a (.not F) = none ↔ evalFilter D d a F = none) ∧
    (∀ a, ¬(a ∈ rowAssets (rowsForDate D u ⟨cols, some F⟩ d) ∧
            a ∈ rowAssets (rowsForDate D u ⟨cols, some (.not F)⟩ d))) ∧
    (∀ a, (a ∈ rowAssets (rowsForDate D u ⟨cols, some F⟩ d) ∨
           a ∈ rowAssets (rowsForDate D u ⟨cols, some (.not F)⟩ d)) ↔
          (a ∈ u d ∧ evalFilter D d a F ≠ none)) := by
  refine ⟨fun a => evalFilter_not_eq_none_iff D d a F, fun a => ?_, fun a => ?_⟩
  · rintro ⟨h1, h2⟩
    rw [mem_rowAssets, keepAsset_screen] at h1 h2
    rw [evalFilter_not_eq_true_iff] at h2
    have := h1.2.symm.trans h2.2
    simp at this
  · constructor
    · rintro (h | h) <;> rw [mem_rowAssets, keepAsset_screen] at h
      · refine ⟨h.1, ?_⟩
        rw [h.2]
        simp
      · rw [evalFilter_not_eq_true_iff] at h
        refine ⟨h.1, ?_⟩
        rw [h.2]
        simp
    · rintro ⟨hu, hne⟩
      cases hF : evalFilter D d a F with
      | none => exact absurd hF hne
      | some b =>
        cases b
        · right
          rw [mem_rowAssets, keepAsset_screen, evalFilter_not_eq_true_iff]
          exact ⟨hu, hF⟩
        · left
          rw [mem_rowAssets, keepAsset_screen]
          exact ⟨hu, hF⟩

/-- Witness for C4: on the demo data, asset 0 appears in the rows screened
by `gtFive` or in the rows screened by its negation. -/
theorem not_screen_partitions_witness :
    0 ∈ rowAssets (rowsForDate filterData univ3 ⟨[], some gtFive⟩ 0) ∨
      0 ∈ rowAssets (rowsForDate filterData univ3 ⟨[], some (.not gtFive)⟩ 0) :=
  ((not_screen_partitions filterData univ3 [] gtFive 0).2.2 0).mpr (by decide)

/-- C5: screening with `F AND G` yields, per date, exactly the intersection
of the row sets obtained by screening with `F` alone and with `G` alone;
a row on which either filter is missing passes neither side (`and` is
`some true` only when both operands are, first conjunct). -/
theorem and_screen_intersection (D : DataSource) (u : Universe)
    (cols : List (String × Term)) (F G : Filter) (d : Nat) :
    (∀ a, evalFilter D d a (.and F G) = some true ↔
        (evalFilter D d a F = some true ∧ evalFilter D d a G = some true)) ∧
    (∀ a, a ∈ rowAssets (rowsForDate D u ⟨cols, some (.and F G)⟩ d) ↔
        (a ∈ rowAssets (rowsForDate D u ⟨cols, some F⟩ d) ∧
         a ∈ rowAssets (rowsForDate D u ⟨cols, some G⟩ d))) := by
  refine ⟨fun a => evalFilter_and_eq_true_iff D d a F G, fun a => ?_⟩
  rw [mem_rowAssets, mem_rowAssets, mem_rowAssets, keepAsset_screen,
    keepAsset_screen, keepAsset_screen, evalFilter_and_eq_true_iff]
  tauto

/-- Witness for C5: on the demo data, asset 0 passes the conjunction of the
two demo screens exactly as it passes each separately. -/
theorem and_screen_intersection_witness :
    0 ∈ rowAssets (rowsForDate filterData univ3 ⟨[], some (.and gtFive ltTwenty)⟩ 0) :=
  ((and_screen_intersection filterData univ3 [] gtFive ltTwenty 0).2 0).mpr
    ⟨by decide, by decide⟩

/-- C6: evaluating a windowed Factor under a mask produces, for an asset
retained by the mask on a date with full window history, the same value as
evaluating the same Factor unmasked. -/
theorem masked_sma_eq_unmasked (D : DataSource) (c w d a : Nat) (M : Filter)
    (hM : evalFilter D d a M = some true)
    (_hw : (windowVals D c w d a).isSome = true) :
    evalFactor D d a (.sma c w (some M)) = evalFactor D d a (.sma c w none) := by
  simp [evalFactor, hM]

/-- Witness for C6: on constant data, the 2-day moving average masked by
`ltFive` equals the unmasked one for asset 0 on day 5. -/
theorem masked_sma_eq_unmasked_witness :
    evalFilter constData 5 0 ltFive = some true ∧
      (windowVals constData 0 2 5 0).isSome = true ∧
      evalFactor constData 5 0 (.sma 0 2 (some ltFive)) =
        evalFactor constData 5 0 (.sma 0 2 none) :=
  ⟨by decide, by decide,
    masked_sma_eq_unmasked constData 0 2 5 0 ltFive (by decide) (by decide)⟩

/-- C7: for a Pipeline with no screen, the number of rows for a single date
equals the number of assets in the universe on that date minus the number
of assets whose value is missing in every declared output column (when
there is at least one such column — with no columns no data is required,
so no asset is dropped). -/
theorem no_screen_row_count (D : DataSource) (u : Universe)
    (cols : List (String × Term)) (d : Nat) :
    (runPipeline D u ⟨cols, none⟩ d d).length =
      (u d).length -
        ((u d).filter (fun a => !cols.isEmpty &&
          cols.all (fun nc => (evalTerm D d a nc.2).isNone))).length := by
  have h1 : d + 1 - d = 1 := by omega
  show (runAux D u ⟨cols, none⟩ d (d + 1 - d)).length = _
  rw [h1, runAux, runAux, List.append_nil, length_rowsForDate]
  have hperm := (List.filter_append_perm
    (keepAsset D ⟨cols, none⟩ d) (u d)).length_eq
  rw [List.length_append] at hperm
  have hpt : ∀ a ∈ u d,
      (!keepAsset D ⟨cols, none⟩ d a) =
        (!cols.isEmpty && cols.all (fun nc => (evalTerm D d a nc.2).isNone)) := by
    intro a _
    show (!(cols.isEmpty || cols.any (fun nc => (evalTerm D d a nc.2).isSome)))
        = _
    rw [all_isNone_eq_not_any_isSome cols (fun nc => evalTerm D d a nc.2)]
    cases cols.isEmpty <;>
      cases cols.any (fun nc => (evalTerm D d a nc.2).isSome) <;> rfl
  rw [List.filter_congr hpt] at hperm
  omega

/-- C8: for every Pipeline and inclusive date range (over universes without
duplicate listings), the result table has: rows only for in-range surviving
(date, asset) pairs, each carrying one named cell per declared output
column (first conjunct); exactly one row per surviving (date, asset) pair
(second conjunct); and rows sorted by date ascending then asset ascending
(third conjunct). -/
theorem run_pipeline_table_shape (D : DataSource) (u : Universe)
    (p : Pipeline) (s e : Nat) (hnd : ∀ d, (u d).Nodup) :
    (∀ r ∈ runPipeline D u p s e,
        s ≤ r.date ∧ r.date ≤ e ∧ r.asset ∈ u r.date ∧
        keepAsset D p r.date r.asset = true ∧
        r.cells.map Prod.fst = p.columns.map Prod.fst) ∧
    (∀ d a, s ≤ d → d ≤ e → a ∈ u d → keepAsset D p d a = true →
        (runPipeline D u p s e).countP
          (fun r => r.date == d && r.asset == a) = 1) ∧
    (runPipeline D u p s e).Pairwise rowLE := by
  refine ⟨?_, ?_, pairwise_runAux D u p (e + 1 - s) s⟩
  · intro r hr
    rcases mem_runAux.mp hr with ⟨d, hd1, hd2, hmem⟩
    rcases mem_rowsForDate.mp hmem with ⟨a, ha, hk, rfl⟩
    have hdate : (mkRow D p d a).date = d := rfl
    have hasset : (mkRow D p d a).asset = a := rfl
    rw [hdate, hasset]
    exact ⟨hd1, by omega, ha, hk, cells_map_fst D p d a⟩
  · intro d a h1 h2 hu hk
    exact countP_runAux_eq_one (hnd d) hu hk h1 (by omega)

/-- Witness for C8: the one-column demo pipeline over a single date has
exactly one row for asset 0 on date 0. -/
theorem run_pipeline_table_shape_witness :
    (runPipeline filterData univ3 latestPipe 0 0).countP
      (fun r => r.date == 0 && r.asset == 0) = 1 :=
  (run_pipeline_table_shape filterData univ3 latestPipe 0 0
      (fun _ => (by decide : ([0, 1, 2] : List Nat).Nodup))).2.1 0 0
    (by decide) (by decide) (by decide) (by decide)

/-- C9: an empty Pipeline (no output columns, no screen) is valid input to
`runPipeline`: the run completes (the function is total) and returns a
table whose rows carry zero output cells (first conjunct), with one row
per asset in the universe on each date of the range (second conjunct). -/
theorem empty_pipeline_table (D : DataSource) (u : Universe) (s e : Nat) :
    (∀ r ∈ runPipeline D u ⟨[], none⟩ s e, r.cells = []) ∧
    (runPipeline D u ⟨[], none⟩ s e).length =
      ((List.range' s (e + 1 - s)).map (fun d => (u d).length)).sum := by
  constructor
  · intro r hr
    rcases mem_runAux.mp hr with ⟨d, _, _, hmem⟩
    rcases mem_rowsForDate.mp hmem with ⟨a, _, _, rfl⟩
    rfl
  · show (runAux D u ⟨[], none⟩ s (e + 1 - s)).length = _
    generalize e + 1 - s = n
    induction n generalizing s with
    | zero => rfl
    | succ m ih =>
      rw [runAux, List.length_append, List.range'_succ, List.map_cons,
        List.sum_cons, length_rowsForDate, ih]
      have : (u s).filter (keepAsset D ⟨[], none⟩ s) = u s := by
        rw [List.filter_congr (fun a _ => rfl :
          ∀ a ∈ u s, keepAsset D ⟨[], none⟩ s a = (fun _ => true) a)]
        exact List.filter_true (u s)
      rw [this]

/-- Witness for C9: the empty pipeline over the demo universe on date 0
contains the row for asset 0 with no cells, and has one row per asset. -/
theorem empty_pipeline_table_witness :
    (⟨0, 0, []⟩ : Row) ∈ runPipeline zData univ3 ⟨[], none⟩ 0 0 ∧
    (⟨0, 0, []⟩ : Row).cells = [] ∧
    (runPipeline zData univ3 ⟨[], none⟩ 0 0).length =
      ((List.range' 0 1).map (fun d => (univ3 d).length)).sum :=
  ⟨by decide,
    (empty_pipeline_table zData univ3 0 0).1 ⟨0, 0, []⟩ (by decide),
    (empty_pipeline_table zData univ3 0 0).2⟩

/-- C10: if the same Filter is both a declared output column and the
Pipeline's screen, every row of the result table carries `True` in that
column — no surviving row has `False` or missing there. -/
theorem screen_column_always_true (D : DataSource) (u : Universe)
    (p : Pipeline) (s e : Nat) (nm : String) (F : Filter)
    (hscr : p.screen = some F) (hcol : (nm, Term.filt F) ∈ p.columns) :
    ∀ r ∈ runPipeline D u p s e,
      (nm, some (CellVal.bool true)) ∈ r.cells := by
  intro r hr
  rcases mem_runAux.mp hr with ⟨d, _, _, hmem⟩
  rcases mem_rowsForDate.mp hmem with ⟨a, _, hk, rfl⟩
  simp only [keepAsset, hscr, decide_eq_true_eq] at hk
  have hcell : evalTerm D d a (Term.filt F) = some (CellVal.bool true) := by
    simp [evalTerm, hk]
  have : (nm, some (CellVal.bool true)) =
      (fun nc : String × Term => (nc.1, evalTerm D d a nc.2)) (nm, Term.filt F) := by
    show _ = (nm, evalTerm D d a (Term.filt F))
    rw [hcell]
  rw [this]
  exact List.mem_map_of_mem _ hcol

/-- Witness for C10: the demo pipeline whose screen `gtFive` is also the
declared column "pos" yields only rows whose "pos" cell is `True`. -/
theorem screen_column_always_true_witness :
    screenPipe.screen = some gtFive ∧
    ("pos", Term.filt gtFive) ∈ screenPipe.columns ∧
    ∀ r ∈ runPipeline filterData univ3 screenPipe 0 0,
      ("pos", some (CellVal.bool true)) ∈ r.cells :=
  ⟨rfl, List.mem_cons_self _ _,
    screen_column_always_true filterData univ3 screenPipe 0 0 "pos" gtFive
      rfl (List.mem_cons_self _ _)⟩

end QP
